import Mathlib

/-!
Shallow embedding of the OPM runtime-parameter system
(`opm/models/utils/parametersystem.{hpp,cpp}`) and proofs about it.

Conventions of the embedding:
* C++ strings are Lean `String`/`List Char`; the C locale character
  classification functions (`isalpha`, `isupper`, ...) coincide with Lean's
  ASCII `Char` predicates, except `isspace`, which is embedded explicitly.
* Thrown C++ exceptions are modelled by `Except PErr`; statement forms that
  construct an exception object without throwing it (a known quirk of
  `parseParameterFile`) are embedded as no-ops, mirroring the source.
* `std::string::substr(pos)` raises `std::out_of_range` when `pos` exceeds
  the string size; this is embedded by `substrFrom`.
* The process-wide mutable registry (`MetaData`) is embedded as an explicit
  state record threaded through every operation; an operation returns its
  result together with the post-state, so that mutations performed before a
  throw survive, exactly as the C++ globals do.
-/

namespace Opm.Parameters

/-! ### ASCII character facts used by the name-transformation proofs -/

/-- Evaluating `Char.ofNat` at a valid code point recovers the code point. -/
theorem toNat_ofNat_valid (n : Nat) (h : n.isValidChar) : (Char.ofNat n).toNat = n := by
  simp only [Char.ofNat, dif_pos h, Char.ofNatAux, Char.toNat]
  rfl

/-- Transfer of `UInt32` lower bounds to `Nat`. -/
theorem uint32_ofNat_le_iff (m : Nat) (hm : m < UInt32.size) (v : UInt32) :
    UInt32.ofNat m ≤ v ↔ m ≤ v.toNat := by
  rw [UInt32.le_def, BitVec.le_def]
  simp only [UInt32.ofNat, UInt32.toNat, BitVec.toNat_ofNat]
  rw [Nat.mod_eq_of_lt hm]

/-- Transfer of `UInt32` upper bounds to `Nat`. -/
theorem uint32_le_ofNat_iff (m : Nat) (hm : m < UInt32.size) (v : UInt32) :
    v ≤ UInt32.ofNat m ↔ v.toNat ≤ m := by
  rw [UInt32.le_def, BitVec.le_def]
  simp only [UInt32.ofNat, UInt32.toNat, BitVec.toNat_ofNat]
  rw [Nat.mod_eq_of_lt hm]

/-- Characterisation of `Char.isUpper` through the numeric code point. -/
theorem isUpper_iff (c : Char) : c.isUpper = true ↔ 65 ≤ c.toNat ∧ c.toNat ≤ 90 := by
  simp only [Char.isUpper, Bool.and_eq_true, decide_eq_true_eq, ge_iff_le]
  rw [show (65 : UInt32) = UInt32.ofNat 65 from rfl, show (90 : UInt32) = UInt32.ofNat 90 from rfl]
  rw [uint32_ofNat_le_iff 65 (by norm_num), uint32_le_ofNat_iff 90 (by norm_num)]
  exact Iff.rfl

/-- Characterisation of `Char.isLower` through the numeric code point. -/
theorem isLower_iff (c : Char) : c.isLower = true ↔ 97 ≤ c.toNat ∧ c.toNat ≤ 122 := by
  simp only [Char.isLower, Bool.and_eq_true, decide_eq_true_eq, ge_iff_le]
  rw [show (97 : UInt32) = UInt32.ofNat 97 from rfl,
    show (122 : UInt32) = UInt32.ofNat 122 from rfl]
  rw [uint32_ofNat_le_iff 97 (by norm_num), uint32_le_ofNat_iff 122 (by norm_num)]
  exact Iff.rfl

/-- Characterisation of `Char.isDigit` through the numeric code point. -/
theorem isDigit_iff (c : Char) : c.isDigit = true ↔ 48 ≤ c.toNat ∧ c.toNat ≤ 57 := by
  simp only [Char.isDigit, Bool.and_eq_true, decide_eq_true_eq, ge_iff_le]
  rw [show (48 : UInt32) = UInt32.ofNat 48 from rfl, show (57 : UInt32) = UInt32.ofNat 57 from rfl]
  rw [uint32_ofNat_le_iff 48 (by norm_num), uint32_le_ofNat_iff 57 (by norm_num)]
  exact Iff.rfl

/-- Characterisation of `Char.isAlpha` through the numeric code point. -/
theorem isAlpha_iff (c : Char) :
    c.isAlpha = true ↔ (65 ≤ c.toNat ∧ c.toNat ≤ 90) ∨ (97 ≤ c.toNat ∧ c.toNat ≤ 122) := by
  simp only [Char.isAlpha, Bool.or_eq_true]
  rw [isUpper_iff, isLower_iff]

/-- Characterisation of `Char.isAlphanum` through the numeric code point. -/
theorem isAlphanum_iff (c : Char) :
    c.isAlphanum = true ↔
      (65 ≤ c.toNat ∧ c.toNat ≤ 90) ∨ (97 ≤ c.toNat ∧ c.toNat ≤ 122) ∨
        (48 ≤ c.toNat ∧ c.toNat ≤ 57) := by
  simp only [Char.isAlphanum, Bool.or_eq_true]
  rw [isAlpha_iff, isDigit_iff]
  tauto

/-- Lower-casing an upper-case ASCII letter adds 32 to the code point. -/
theorem toLower_of_isUpper (c : Char) (h : c.isUpper = true) :
    c.toLower.toNat = c.toNat + 32 := by
  obtain ⟨h1, h2⟩ := (isUpper_iff c).mp h
  have hv : (c.toNat + 32).isValidChar := by
    constructor
    omega
  unfold Char.toLower
  rw [if_pos (by omega)]
  exact toNat_ofNat_valid _ hv

/-- Lower-casing leaves a character that is not an upper-case ASCII letter alone. -/
theorem toLower_of_not_isUpper (c : Char) (h : ¬ c.isUpper = true) : c.toLower = c := by
  unfold Char.toLower
  rw [if_neg]
  intro hc
  exact h ((isUpper_iff c).mpr hc)

/-- Upper-casing after lower-casing recovers an upper-case ASCII letter. -/
theorem toUpper_toLower_of_isUpper (c : Char) (h : c.isUpper = true) : c.toLower.toUpper = c := by
  obtain ⟨h1, h2⟩ := (isUpper_iff c).mp h
  have hlow := toLower_of_isUpper c h
  unfold Char.toUpper
  rw [hlow, if_pos (by omega)]
  have h3 : c.toNat + 32 - 32 = c.toNat := by omega
  rw [h3, Char.ofNat_toNat]

/-- Two characters with equal code points are equal. -/
theorem char_eq_of_toNat_eq (a b : Char) (h : a.toNat = b.toNat) : a = b := by
  have := congrArg Char.ofNat h
  rwa [Char.ofNat_toNat, Char.ofNat_toNat] at this

/-! ### Errors and low-level string primitives -/

/-- Exception vocabulary of the parameter system.  One constructor per C++
throw site; constructors carry the error-prefix string where the source
builds the message from one.  `unterminatedString` appears in the system's
documented error vocabulary but is produced by no code path; it exists here
so that statements about it can be written down.  `substrOutOfRange` is the
`std::out_of_range` raised by `std::string::substr` on an excessive start
position. -/
inductive PErr where
  | expectedQuoted (pfx : String)
  | unexpectedEnd (pfx : String)
  | unknownEscape (pfx : String) (c : Char)
  | unterminatedString (pfx : String)
  | substrOutOfRange
  | emptyName (pfx : String)
  | badFirstChar (pfx : String) (s : String)
  | invalidNameErr (pfx : String) (s : String)
  | duplicateInFile (pfx : String) (key : String)
  | alreadyClosed
  | registrationClosed (name : String)
  | conflictingRegistration (name : String)
  | retrieveBeforeClose
  | unknownParam (name : String)
  | valueParseError (name : String)
deriving DecidableEq, Repr

/-- C `isspace` in the default locale: space, tab, newline, vertical tab,
form feed, carriage return. -/
def isSpace (c : Char) : Bool :=
  c = ' ' || c = '\t' || c = '\n' || c = '\x0b' || c = '\x0c' || c = '\r'

/-- Embedding of `std::string::substr(pos)`: suffix from `pos`, raising
`std::out_of_range` when `pos` exceeds the length. -/
def substrFrom (s : String) (pos : Nat) : Except PErr String :=
  if pos ≤ s.length then .ok (String.mk (s.data.drop pos)) else .error .substrOutOfRange

/-- Loop body of `parseQuotedValue`: scans the characters after the opening
quote, translating escape sequences, and returns the translated value
together with the text after the closing quote.  Reaching the end of the
input without a closing quote corresponds to the source's final
`s.substr(i+1)` with `i` one past the end, hence `substrOutOfRange`. -/
def parseQuotedTail (pfx : String) : List Char → Except PErr (List Char × List Char)
  | [] => .error .substrOutOfRange
  | c :: rest =>
    if c = '\\' then
      match rest with
      | [] => .error (.unexpectedEnd pfx)
      | e :: rest' =>
        if e = 'n' then (parseQuotedTail pfx rest').map (fun p => ('\n' :: p.1, p.2))
        else if e = 'r' then (parseQuotedTail pfx rest').map (fun p => ('\r' :: p.1, p.2))
        else if e = 't' then (parseQuotedTail pfx rest').map (fun p => ('\t' :: p.1, p.2))
        else if e = '"' then (parseQuotedTail pfx rest').map (fun p => ('"' :: p.1, p.2))
        else if e = '\\' then (parseQuotedTail pfx rest').map (fun p => ('\\' :: p.1, p.2))
        else .error (.unknownEscape pfx e)
    else if c = '"' then .ok ([], rest)
    else (parseQuotedTail pfx rest).map (fun p => (c :: p.1, p.2))

/-- Embedding of `parseQuotedValue`: the input must begin with `"`; returns
the translated value and the remaining input (the source updates `s` in
place and returns the value). -/
def parseQuotedValue (s : String) (pfx : String) : Except PErr (String × String) :=
  match s.data with
  | '"' :: rest => (parseQuotedTail pfx rest).map (fun p => (String.mk p.1, String.mk p.2))
  | _ => .error (.expectedQuoted pfx)

/-- Statement vocabulary for the quoted-value claims: scanning the
characters after the opening quote and skipping the character that follows
each backslash (as the scanner does), no unescaped double quote is ever
met — i.e. the opening quote is never closed. -/
def unescapedQuoteFree : List Char → Bool
  | [] => true
  | c :: rest =>
    if c = '"' then false
    else if c = '\\' then
      match rest with
      | [] => true
      | _ :: rest' => unescapedQuoteFree rest'
    else unescapedQuoteFree rest

/-- Statement vocabulary: the same escape-skipping scan ends exactly on a
trailing backslash, i.e. the input ends in the middle of an escape
sequence. -/
def endsMidEscape : List Char → Bool
  | [] => false
  | c :: rest =>
    if c = '\\' then
      match rest with
      | [] => true
      | _ :: rest' => endsMidEscape rest'
    else endsMidEscape rest

/-- Statement vocabulary: every escape sequence met by the scan names one
of the five recognised escape characters (a trailing lone backslash is not
an escape sequence and is not judged here). -/
def allEscapesValid : List Char → Bool
  | [] => true
  | c :: rest =>
    if c = '\\' then
      match rest with
      | [] => true
      | e :: rest' =>
        (e = 'n' || e = 'r' || e = 't' || e = '"' || e = '\\') && allEscapesValid rest'
    else allEscapesValid rest

/-- Embedding of `parseUnquotedValue`: splits at the first whitespace,
returning the prefix as the value and the rest as the remaining input. -/
def parseUnquotedValue (s : String) : String × String :=
  (String.mk (s.data.takeWhile (fun c => !isSpace c)),
   String.mk (s.data.dropWhile (fun c => !isSpace c)))

/-- Embedding of `removeLeadingSpace`: drops the leading whitespace run. -/
def removeLeadingSpace (s : String) : String :=
  String.mk (s.data.dropWhile isSpace)

/-- Embedding of `parseKey`: consumes characters up to the first whitespace
or `=`, returning the key and the remaining input. -/
def parseKey (s : String) : String × String :=
  (String.mk (s.data.takeWhile (fun c => !(isSpace c || c = '='))),
   String.mk (s.data.dropWhile (fun c => !(isSpace c || c = '='))))

/-! ### Name transformation -/

/-- Loop body of `transformKey` over the characters after the first: an
alphanumeric character is copied, a hyphen followed by a letter is removed
with the letter upper-cased, anything else is an invalid name. -/
def transformKeyTail (pfx : String) (original : String) : List Char → Except PErr (List Char)
  | [] => .ok []
  | c :: rest =>
    if c = '-' then
      match rest with
      | [] => .error (.invalidNameErr pfx original)
      | d :: rest' =>
        if d.isAlpha then (transformKeyTail pfx original rest').map (fun r => d.toUpper :: r)
        else .error (.invalidNameErr pfx original)
    else if c.isAlphanum then (transformKeyTail pfx original rest).map (fun r => c :: r)
    else .error (.invalidNameErr pfx original)

/-- Embedding of `transformKey`: validates the name, optionally upper-cases
the first character, and converts kebab-case to CamelCase. -/
def transformKey (s : String) (capitalizeFirstLetter : Bool) (pfx : String) :
    Except PErr String :=
  match s.data with
  | [] => .error (.emptyName pfx)
  | c :: rest =>
    if c.isAlpha then
      (transformKeyTail pfx s rest).map
        (fun r => String.mk ((if capitalizeFirstLetter then c.toUpper else c) :: r))
    else .error (.badFirstChar pfx s)

/-- Kebab-case rendering of a canonical name from `printParamUsage`: the
accumulator starts as `"-"`, and every character is lower-cased with an
extra `"-"` inserted before each upper-case character. -/
def cmdLineNameChars : List Char → List Char
  | [] => []
  | c :: rest =>
    (if c.isUpper then ['-', c.toLower] else [c.toLower]) ++ cmdLineNameChars rest

/-- Embedding of the command-line-name conversion in `printParamUsage`. -/
def cmdLineNameOf (camelCaseName : String) : String :=
  "-" ++ String.mk (cmdLineNameChars camelCaseName.data)

/-! ### Line wrapping (`breakLines`) -/

/-- Embedding of `msg.substr(pos, len)` for in-range positions: `len`
characters starting at `pos` (clamped at the end, as in C++). -/
def csub (msg : List Char) (pos len : Nat) : List Char :=
  (msg.drop pos).take len

/-- Loop of `breakLines`, with the source's mutable locals made explicit.
One unit of fuel is spent per iteration of the `for` loop; the loop
advances `inPos` by one at each iteration and rewinds it only while
advancing `startInPos`, so `2 * msg.length + 4` units are always enough,
and on exhaustion the code falls out of the loop exactly like the source's
final flush.  In the wrap branches the source assigns `inPos` and `ttyPos`
and then runs the `for` update `++inPos, ++ttyPos`; the recursive calls
below pass the already-updated values. -/
def blLoop (msg : List Char) (indentWidth maxWidth : Int) :
    Nat → Nat → Nat → Nat → Int → List Char → List Char
  | 0, startInPos, _, _, _, result => result ++ msg.drop startInPos
  | fuel + 1, startInPos, inPos, lastBreakPos, ttyPos, result =>
    if h : inPos < msg.length then
      let c := msg.get ⟨inPos, h⟩
      if c = '\n' then
        blLoop msg indentWidth maxWidth fuel
          (inPos + 1) (inPos + 1) (inPos + 2) 0
          (result ++ csub msg startInPos (inPos - startInPos + 1))
      else
        let lb := if isSpace c then inPos else lastBreakPos
        if ttyPos ≥ maxWidth then
          if lb > startInPos then
            blLoop msg indentWidth maxWidth fuel
              (lb + 1) (lb + 2) (lb + 1) (indentWidth + 1)
              (result ++ csub msg startInPos (lb - startInPos) ++ '\n' ::
                List.replicate indentWidth.toNat ' ')
          else
            blLoop msg indentWidth maxWidth fuel
              inPos (inPos + 1) inPos (indentWidth + 1)
              (result ++ csub msg startInPos (inPos - startInPos) ++ '\n' ::
                List.replicate indentWidth.toNat ' ')
        else
          blLoop msg indentWidth maxWidth fuel startInPos (inPos + 1) lb (ttyPos + 1) result
    else result ++ msg.drop startInPos

/-- Embedding of `breakLines`. -/
def breakLines (msg : String) (indentWidth maxWidth : Int) : String :=
  String.mk (blLoop msg.data indentWidth maxWidth (2 * msg.length + 4) 0 0 0 0 [])

/-! ### Data model -/

/-- Value kinds supported by the embedding: the closed set of parameter
value types exercised by the claims (`std::string`, `bool`, `int`). -/
inductive ParamKind where
  | string
  | boolean
  | int
deriving DecidableEq, Repr

/-- A typed parameter value. -/
inductive PValue where
  | str (s : String)
  | boolean (b : Bool)
  | int (n : Int)
deriving DecidableEq, Repr

/-- Kind of a value. -/
def PValue.kind : PValue → ParamKind
  | .str _ => .string
  | .boolean _ => .boolean
  | .int _ => .int

/-- Serialization through `std::ostringstream` as used by `Register` and
`SetDefault`: strings pass through, `bool` prints as `0`/`1`
(`noboolalpha`), integers print in decimal. -/
def PValue.serialize : PValue → String
  | .str s => s
  | .boolean b => if b then "1" else "0"
  | .int n => toString n

/-- Embedding of `Dune::className<ParamType>()` for the supported kinds
(an external primitive; only its injectivity on distinct types matters). -/
def ParamKind.className : ParamKind → String
  | .string => "std::string"
  | .boolean => "bool"
  | .int => "int"

/-- Embedding of `ParamInfo`. -/
structure ParamInfo where
  paramName : String
  paramTypeName : String
  typeTagName : String
  usageString : String
  defaultValue : String
  isHidden : Bool
deriving DecidableEq, Repr

/-- Embedding of `ParamInfo::operator==`: only the name, the type name, the
type-tag name and the usage string participate. -/
def ParamInfo.eq (a b : ParamInfo) : Bool :=
  b.paramName == a.paramName && b.paramTypeName == a.paramTypeName &&
    b.typeTagName == a.typeTagName && b.usageString == a.usageString

/-- The value-initialized `ParamInfo` inserted by `std::map::operator[]`
when the key is absent: empty strings, `isHidden = false`. -/
def emptyParamInfo : ParamInfo :=
  { paramName := "", paramTypeName := "", typeTagName := "", usageString := "",
    defaultValue := "", isHidden := false }

/-- A parameter declaration: the `Param` template argument of the C++ API,
carrying its canonical name (`detail::getParamName`) and its compiled-in
default `Param::value`, whose type determines the parameter's kind. -/
structure ParamDecl where
  name : String
  value : PValue
deriving DecidableEq, Repr

/-- Value kind of a parameter declaration. -/
def ParamDecl.kind (p : ParamDecl) : ParamKind :=
  p.value.kind

/-- Embedding of `std::from_chars` into `int` as used on the serialized
default text: an optional minus sign followed by a longest (possibly
empty) digit run parsed from the front; when no digit is found the
output variable is left at its previous value, which `Get` initialized to
the compiled-in default.  Overflow is not modelled (integers are
unbounded here). -/
def fromCharsInt (s : String) (fallback : Int) : Int :=
  match s.data with
  | '-' :: rest =>
    let digits := rest.takeWhile Char.isDigit
    if digits.isEmpty then fallback
    else -(Int.ofNat ((digits.map (fun c => c.toNat - 48)).foldl (fun a d => 10 * a + d) 0))
  | chars =>
    let digits := chars.takeWhile Char.isDigit
    if digits.isEmpty then fallback
    else Int.ofNat ((digits.map (fun c => c.toNat - 48)).foldl (fun a d => 10 * a + d) 0)

/-- Modelled from the spec: the typed conversion of the external
hierarchical key-value store (`Dune::ParameterTree::get<T>`), an external
collaborator whose code is not part of this repository.  The spec only
requires a typed retrieval that may fail on malformed text
(`ValueParseError`); strings pass through, booleans and integers parse
from text. -/
def duneParse : ParamKind → String → Option PValue
  | .string, s => some (.str s)
  | .boolean, s =>
    if s = "1" || s = "true" || s = "yes" then some (.boolean true)
    else if s = "0" || s = "false" || s = "no" then some (.boolean false)
    else none
  | .int, s =>
    match s.data with
    | [] => none
    | chars =>
      if chars.all Char.isDigit then
        some (.int (Int.ofNat ((chars.map (fun c => c.toNat - 48)).foldl
          (fun a d => 10 * a + d) 0)))
      else none

/-! ### The registry state (`MetaData`) and association-list stores -/

/-- Lookup in an association list (leftmost binding wins, as for the keys
of a `std::map` / `Dune::ParameterTree`, which are unique here). -/
def alookup {α : Type} (m : List (String × α)) (k : String) : Option α :=
  match m with
  | [] => none
  | (k', v) :: rest => if k' = k then some v else alookup rest k

/-- Store a binding: replace the existing binding for the key, or append a
new one. -/
def astore {α : Type} (m : List (String × α)) (k : String) (v : α) : List (String × α) :=
  match m with
  | [] => [(k, v)]
  | (k', v') :: rest => if k' = k then (k, v) :: rest else (k', v') :: astore rest k v

/-- Embedding of the process-wide `MetaData` storage: the value store
(`tree`, flattened to its dotted-path leaf keys), the registry, the pending
registration finalizers, and the registration-open flag. -/
structure MetaData where
  tree : List (String × String)
  registry : List (String × ParamInfo)
  finalizers : List ParamDecl
  registrationOpen : Bool
deriving DecidableEq, Repr

/-- Embedding of `Dune::ParameterTree::hasKey`. -/
def hasKey (st : MetaData) (k : String) : Bool :=
  (alookup st.tree k).isSome

/-- Embedding of `MetaData::clear` (and thus of `reset`): fresh tree, no
registry entries, no finalizers, registration open. -/
def MetaData.clear : MetaData :=
  { tree := [], registry := [], finalizers := [], registrationOpen := true }

/-- Embedding of `reset`. -/
def reset (_st : MetaData) : MetaData :=
  MetaData.clear

/-- Embedding of `MetaData::mutableRegistry()[paramName]`:
`std::map::operator[]` returns the existing entry, or value-initializes and
inserts a fresh one when the key is absent. -/
def registryIndex (m : List (String × ParamInfo)) (k : String) :
    ParamInfo × List (String × ParamInfo) :=
  match alookup m k with
  | some v => (v, m)
  | none => (emptyParamInfo, m ++ [(k, emptyParamInfo)])

/-! ### Resolution API (`Get`, `IsSet`, `SetDefault`) -/

/-- Embedding of `Get`.  The result is paired with the post-state because
`MetaData::mutableRegistry()[paramName]` inserts a value-initialized
registry entry when the parameter is unknown.  The serialized default text
is parsed according to the parameter's static type (string passthrough,
`defVal == "1"` for `bool`, `std::from_chars` for `int`, the latter leaving
the compiled-in default in place when no digit parses); the typed tree
lookup falls back to that default when the canonical key is absent. -/
def Get (p : ParamDecl) (errorIfNotRegistered : Bool) (st : MetaData) :
    Except PErr PValue × MetaData :=
  if errorIfNotRegistered && st.registrationOpen then
    (.error .retrieveBeforeClose, st)
  else if errorIfNotRegistered && (alookup st.registry p.name).isNone then
    (.error (.unknownParam p.name), st)
  else
    let idx := registryIndex st.registry p.name
    let defVal := idx.1.defaultValue
    let defaultValue : PValue :=
      match p.value with
      | .str _ => .str defVal
      | .boolean _ => .boolean (defVal == "1")
      | .int m => .int (fromCharsInt defVal m)
    let st' : MetaData := { st with registry := idx.2 }
    match alookup st.tree p.name with
    | none => (.ok defaultValue, st')
    | some txt =>
      match duneParse p.kind txt with
      | some v => (.ok v, st')
      | none => (.error (.valueParseError p.name), st')

/-- Embedding of `IsSet`: after the lifecycle and registration checks,
reports whether the canonical key is present in the value store. -/
def IsSet (p : ParamDecl) (errorIfNotRegistered : Bool) (st : MetaData) :
    Except PErr Bool × MetaData :=
  if errorIfNotRegistered && st.registrationOpen then
    (.error .retrieveBeforeClose, st)
  else if errorIfNotRegistered && (alookup st.registry p.name).isNone then
    (.error (.unknownParam p.name), st)
  else
    (.ok (hasKey st p.name), st)

/-- Embedding of `SetDefault`: requires prior registration, then overwrites
the registry entry's serialized default text. -/
def SetDefault (p : ParamDecl) (newValue : PValue) (st : MetaData) :
    Except PErr Unit × MetaData :=
  if (alookup st.registry p.name).isNone then
    (.error (.unknownParam p.name), st)
  else
    (.ok (), { st with
      registry := astore st.registry p.name
        { (registryIndex st.registry p.name).1 with defaultValue := newValue.serialize } })

/-! ### Registration API (`Register`, `Hide`, `endRegistration`) -/

/-- The `ParamInfo` assembled by a `Register` call. -/
def builtParamInfo (p : ParamDecl) (usageString : String) : ParamInfo :=
  { paramName := p.name, paramTypeName := p.kind.className, typeTagName := "",
    usageString := usageString, defaultValue := p.value.serialize, isHidden := false }

/-- Embedding of `Register`.  Note the order of effects, taken from the
source: the registration-open check comes first, then the finalizer is
appended, and only then is the registry consulted for an existing entry;
an idempotent or conflicting re-registration therefore still appends its
finalizer.  The `typeTagName` field of the assembled `ParamInfo` is never
assigned by the source and stays default-constructed, i.e. empty. -/
def Register (p : ParamDecl) (usageString : String) (st : MetaData) :
    Except PErr Unit × MetaData :=
  if !st.registrationOpen then
    (.error (.registrationClosed p.name), st)
  else
    let st1 : MetaData := { st with finalizers := st.finalizers ++ [p] }
    match alookup st1.registry p.name with
    | some existing =>
      if existing.eq (builtParamInfo p usageString) then (.ok (), st1)
      else (.error (.conflictingRegistration p.name), st1)
    | none =>
      (.ok (), { st1 with registry := astore st1.registry p.name (builtParamInfo p usageString) })

/-- Embedding of `Hide`: requires registration open and the parameter
registered, then sets the hidden flag. -/
def Hide (p : ParamDecl) (st : MetaData) : Except PErr Unit × MetaData :=
  if !st.registrationOpen then
    (.error (.registrationClosed p.name), st)
  else
    match alookup st.registry p.name with
    | none => (.error (.unknownParam p.name), st)
    | some info =>
      (.ok (), { st with registry := astore st.registry p.name { info with isHidden := true } })

/-- Runs the pending registration finalizers in order; each performs
`Get` with `errorIfNotRegistered = true` (`ParamRegFinalizer_::retrieve`).
The first failure propagates, stopping the loop.  The returned list records
the parameters retrieved, in order — the invocation trace. -/
def retrieveAll : List ParamDecl → MetaData → Except PErr Unit × MetaData × List String
  | [], st => (.ok (), st, [])
  | p :: rest, st =>
    match Get p true st with
    | (.ok _, st') =>
      let r := retrieveAll rest st'
      (r.1, r.2.1, p.name :: r.2.2)
    | (.error e, st') => (.error e, st', [p.name])

/-- Embedding of `endRegistration`: fails when registration is already
closed; otherwise closes registration, runs every pending finalizer, and
clears the finalizer list (which a finalizer failure skips, since the C++
exception propagates before the `clear()`). -/
def endRegistration (st : MetaData) : Except PErr Unit × MetaData × List String :=
  if !st.registrationOpen then
    (.error .alreadyClosed, st, [])
  else
    let r := retrieveAll st.finalizers { st with registrationOpen := false }
    match r.1 with
    | .ok _ => (.ok (), { r.2.1 with finalizers := [] }, r.2.2)
    | .error e => (.error e, r.2.1, r.2.2)

/-! ### INI-file ingestion (`parseParameterFile`) -/

/-- Line loop of `parseParameterFile` over the file's lines.  `curLineNum`
is the 1-based number of the first pending line.  Three malformed-line
checks in the source build a `std::runtime_error` object without throwing
it (missing `=`, empty or comment-only value, trailing garbage); they are
embedded as the no-ops they are, marked below.  The unconditional
`curLine.substr(1)` after the missing-`=` check does raise
`std::out_of_range` when the rest of the line is empty. -/
def ppfLoop (fileName : String) (overwrite : Bool) :
    List String → Nat → List String → List (String × String) →
      Except PErr Unit × List (String × String)
  | [], _, _, tree => (.ok (), tree)
  | line :: rest, curLineNum, seenKeys, tree =>
    let errorPrefix := fileName ++ ":" ++ toString curLineNum ++ ": "
    let curLine := removeLeadingSpace line
    if curLine = "" || curLine.data.head? = some '#' || curLine.data.head? = some ';' then
      ppfLoop fileName overwrite rest (curLineNum + 1) seenKeys tree
    else
      let kr := parseKey curLine
      match transformKey kr.1 true errorPrefix with
      | .error e => (.error e, tree)
      | .ok canonicalKey =>
        if seenKeys.contains canonicalKey then
          (.error (.duplicateInFile errorPrefix canonicalKey), tree)
        else
          let seenKeys' := canonicalKey :: seenKeys
          let s1 := removeLeadingSpace kr.2
          -- here the source CONSTRUCTS a syntax error when `s1` is empty or
          -- does not start with '=', but does not throw it: no-op
          match substrFrom s1 1 with
          | .error e => (.error e, tree)
          | .ok s2 =>
            let s3 := removeLeadingSpace s2
            -- here the source constructs, but again does not throw, a syntax
            -- error when the value part is empty or a comment: no-op
            let vres : Except PErr (String × String) :=
              if s3.data.head? = some '"' then parseQuotedValue s3 errorPrefix
              else .ok (parseUnquotedValue s3)
            match vres with
            | .error e => (.error e, tree)
            | .ok vr =>
              let s4 := removeLeadingSpace vr.2
              -- trailing non-comment garbage: a third constructed-but-unthrown
              -- syntax error: no-op
              let tree' :=
                if overwrite || (alookup tree canonicalKey).isNone then
                  astore tree canonicalKey vr.1
                else tree
              have : s4 = s4 := rfl
              ppfLoop fileName overwrite rest (curLineNum + 1) seenKeys' tree'

/-- Embedding of `parseParameterFile`, taking the file's contents as its
list of lines (file I/O is an external primitive). -/
def parseParameterFile (fileName : String) (fileLines : List String) (overwrite : Bool)
    (st : MetaData) : Except PErr Unit × MetaData :=
  let r := ppfLoop fileName overwrite fileLines 1 [] st.tree
  (r.1, { st with tree := r.2 })

/-! ### Command-line ingestion (`parseCommandLineOptions`) -/

/-- Which branch of the argument loop an examined token took: delegation to
the positional-argument callback, or processing as a named
`--name=value` option. -/
inductive CmdEvent where
  | positional (tok : String)
  | named (tok : String)
deriving DecidableEq, Repr

/-- Outcome of a positional-argument callback invocation: how many tokens
it consumed, which key/value pairs it stored, and its error message (used
when it consumed none). -/
structure PosOutcome where
  numHandled : Int
  sets : List (String × String)
  errorMsg : String

/-- Type of positional-argument callbacks: a pure function of the argument
vector, the current index and the running count of positional
parameters. -/
def PosHandler : Type :=
  List String → Nat → Nat → PosOutcome

/-- Embedding of `noPositionalParameters_`: rejects every positional
argument. -/
def noPositionalParameters : PosHandler :=
  fun argv paramIdx _numPos =>
    { numHandled := 0, sets := [],
      errorMsg := "Illegal parameter \"" ++ argv.getD paramIdx "" ++ "\"." }

/-- Test from the source deciding delegation to the positional handler:
`strlen(argv[i]) < 4 || argv[i][0] != '-' || argv[i][1] != '-'`. -/
def isPositionalTok (tok : String) : Bool :=
  decide (tok.length < 4) || decide (tok.data.head? ≠ some '-') ||
    decide (tok.data.get? 1 ≠ some '-')

/-- Argument loop of `parseCommandLineOptions`, from index `i`.  A token
satisfying `isPositionalTok` is delegated to the positional callback;
every other token is handled as a named option.  The result is the
returned message (errors thrown by `transformKey` propagate as `.error`),
the updated value store, and the trace of examined tokens.  Usage printing
on the error paths writes to a stream and is elided.  One unit of fuel is
spent per loop iteration; every iteration advances `i` by at least one
(the positional branch only continues when the callback consumed at least
one token), so `argv.length` units are always enough, and on exhaustion
the loop ends exactly like the source's normal exit. -/
def pclLoop (posArgCallback : PosHandler) (argv : List String) :
    Nat → Nat → Nat → List String → List (String × String) →
      Except PErr String × List (String × String) × List CmdEvent
  | 0, _, _, _, tree => (.ok "", tree, [])
  | fuel + 1, i, numPositionalParams, seenKeys, tree =>
    if h : i < argv.length then
      if isPositionalTok (argv.get ⟨i, h⟩) = true then
        if (posArgCallback argv i numPositionalParams).numHandled < 1 then
          (.ok (posArgCallback argv i numPositionalParams).errorMsg, tree,
            [CmdEvent.positional (argv.get ⟨i, h⟩)])
        else
          let r := pclLoop posArgCallback argv fuel
            (i + (posArgCallback argv i numPositionalParams).numHandled.toNat)
            (numPositionalParams + 1) seenKeys
            ((posArgCallback argv i numPositionalParams).sets.foldl
              (fun t kv => astore t kv.1 kv.2) tree)
          (r.1, r.2.1, CmdEvent.positional (argv.get ⟨i, h⟩) :: r.2.2)
      else
        if ¬ ((argv.get ⟨i, h⟩).data.get? 2).any Char.isAlpha then
          (.ok ("Parameter name of argument " ++ toString i ++ " ('" ++ argv.get ⟨i, h⟩ ++
            "') is invalid because it does not start with a letter."), tree,
            [CmdEvent.named (argv.get ⟨i, h⟩)])
        else
          match transformKey (parseKey (String.mk ((argv.get ⟨i, h⟩).data.drop 2))).1 true "" with
          | .error e => (.error e, tree, [CmdEvent.named (argv.get ⟨i, h⟩)])
          | .ok paramName =>
            if seenKeys.contains paramName then
              (.ok ("Parameter '" ++ paramName ++
                "' specified multiple times as a command line parameter"), tree,
                [CmdEvent.named (argv.get ⟨i, h⟩)])
            else if (parseKey (String.mk ((argv.get ⟨i, h⟩).data.drop 2))).2.data.head? ≠
                some '=' then
              (.ok ("Parameter '" ++ paramName ++ "' is missing a value. " ++
                " Please use " ++ argv.get ⟨i, h⟩ ++ "=value."), tree,
                [CmdEvent.named (argv.get ⟨i, h⟩)])
            else
              let r := pclLoop posArgCallback argv fuel (i + 1) numPositionalParams
                (paramName :: seenKeys)
                (astore tree paramName
                  (String.mk ((parseKey (String.mk ((argv.get ⟨i, h⟩).data.drop 2))).2.data.drop 1)))
              (r.1, r.2.1, CmdEvent.named (argv.get ⟨i, h⟩) :: r.2.2)
    else (.ok "", tree, [])

/-- Embedding of `parseCommandLineOptions`: the help short-circuit followed
by the argument loop starting at index 1 (index 0 is the program name). -/
def parseCommandLineOptions (argv : List String) (helpPreamble : String)
    (posArgCallback : PosHandler) (tree : List (String × String)) :
    Except PErr String × List (String × String) × List CmdEvent :=
  if helpPreamble != "" &&
      (argv.drop 1).any (fun t => t == "-h" || t == "--help" || t == "--help-all") then
    (.ok "Help called", tree, [])
  else
    pclLoop posArgCallback argv argv.length 1 0 [] tree

/-! ### Helper lemmas -/

/-- Looking up the key just stored finds the stored value. -/
theorem alookup_astore_self {α : Type} (m : List (String × α)) (k : String) (v : α) :
    alookup (astore m k v) k = some v := by
  induction m with
  | nil => simp [astore, alookup]
  | cons hd tl ih =>
    by_cases hk : hd.1 = k
    · simp [astore, hk, alookup]
    · simp [astore, hk, alookup, ih]

/-- The class names of the supported kinds are pairwise distinct. -/
theorem className_inj (a b : ParamKind) : a.className = b.className ↔ a = b := by
  cases a <;> cases b <;> simp [ParamKind.className]

/-- A `Register` call never changes the registration-open flag. -/
theorem register_registrationOpen (p : ParamDecl) (u : String) (st : MetaData) :
    (Register p u st).2.registrationOpen = st.registrationOpen := by
  unfold Register
  by_cases hopen : st.registrationOpen
  · simp only [hopen, Bool.not_true, Bool.false_eq_true, if_false]
    cases alookup st.registry p.name with
    | none => simp
    | some existing =>
      by_cases he : existing.eq (builtParamInfo p u) = true <;> simp [he]
  · simp [hopen]

/-- Equality test used by `Register` on the infos built from two
registrations of the same canonical name: it holds exactly when the value
kinds and the usage strings agree (the type tags are both empty). -/
theorem builtParamInfo_eq_iff (p1 p2 : ParamDecl) (u1 u2 : String) (hname : p2.name = p1.name) :
    ParamInfo.eq (builtParamInfo p1 u1) (builtParamInfo p2 u2) = true ↔
      p2.kind = p1.kind ∧ u2 = u1 := by
  simp [ParamInfo.eq, builtParamInfo, hname, className_inj]

/-- Evaluation of `Register` at a state whose registry already binds the
canonical name: the registry is left alone either way, the finalizer is
appended either way, and the result depends on the `ParamInfo` equality
test. -/
theorem register_existing (p : ParamDecl) (u : String) (st : MetaData)
    (hopen : st.registrationOpen = true) (existing : ParamInfo)
    (hlook : alookup st.registry p.name = some existing) :
    Register p u st =
      (if existing.eq (builtParamInfo p u) then .ok ()
        else .error (.conflictingRegistration p.name),
       { st with finalizers := st.finalizers ++ [p] }) := by
  unfold Register
  simp only [hopen, Bool.not_true, Bool.false_eq_true, if_false, hlook]
  by_cases he : existing.eq (builtParamInfo p u) = true <;> simp [he]

/-! ### Claim theorems -/

/-- C1.  After `endRegistration` (registration closed), for a registered
parameter: `Get` returns the value stored in the value store under the
canonical key converted to the declared type whenever that key is present;
when the key is absent it returns the registry entry's recorded default
text parsed into the declared type — a boolean default is true exactly when
that text is `"1"`, a string default passes through unchanged, an integer
default parses via `std::from_chars` — and `IsSet` returns exactly whether
the canonical key is present in the value store. -/
theorem c1_get_isSet_resolution (p : ParamDecl) (info : ParamInfo) (st : MetaData)
    (hclosed : st.registrationOpen = false)
    (hreg : alookup st.registry p.name = some info) :
    IsSet p true st = (.ok (hasKey st p.name), st) ∧
    (∀ txt v, alookup st.tree p.name = some txt → duneParse p.kind txt = some v →
      (Get p true st).1 = .ok v) ∧
    (alookup st.tree p.name = none →
      (∀ s0, p.value = .str s0 → (Get p true st).1 = .ok (.str info.defaultValue)) ∧
      (∀ b0, p.value = .boolean b0 →
        (Get p true st).1 = .ok (.boolean (info.defaultValue == "1"))) ∧
      (∀ m0, p.value = .int m0 →
        (Get p true st).1 = .ok (.int (fromCharsInt info.defaultValue m0)))) := by
  refine ⟨?_, ?_, ?_⟩
  · simp [IsSet, hclosed, hreg]
  · intro txt v htxt hv
    simp [Get, hclosed, hreg, registryIndex, htxt, hv]
  · intro habsent
    refine ⟨?_, ?_, ?_⟩
    · intro s0 hs0
      simp [Get, hclosed, hreg, registryIndex, habsent, hs0]
    · intro b0 hb0
      simp [Get, hclosed, hreg, registryIndex, habsent, hb0]
    · intro m0 hm0
      simp [Get, hclosed, hreg, registryIndex, habsent, hm0]

/-- Witness for C1 at a concrete closed state: a boolean parameter whose
recorded default text is `"0"` resolves to `false` when unset, and `IsSet`
reports its absence. -/
theorem c1_get_isSet_resolution_witness :
    (Get ⟨"Verbose", .boolean true⟩ true
        { tree := [],
          registry := [("Verbose",
            { paramName := "Verbose", paramTypeName := "bool", typeTagName := "",
              usageString := "v", defaultValue := "0", isHidden := false })],
          finalizers := [], registrationOpen := false }).1 = .ok (.boolean false) ∧
    (IsSet ⟨"Verbose", .boolean true⟩ true
        { tree := [],
          registry := [("Verbose",
            { paramName := "Verbose", paramTypeName := "bool", typeTagName := "",
              usageString := "v", defaultValue := "0", isHidden := false })],
          finalizers := [], registrationOpen := false }).1 = .ok false := by
  have h := c1_get_isSet_resolution ⟨"Verbose", .boolean true⟩
    { paramName := "Verbose", paramTypeName := "bool", typeTagName := "",
      usageString := "v", defaultValue := "0", isHidden := false }
    { tree := [],
      registry := [("Verbose",
        { paramName := "Verbose", paramTypeName := "bool", typeTagName := "",
          usageString := "v", defaultValue := "0", isHidden := false })],
      finalizers := [], registrationOpen := false }
    rfl (by simp [alookup])
  constructor
  · have hb := (h.2.2 (by simp [alookup])).2.1 true rfl
    rw [hb]
    simp
  · rw [h.1]
    simp [hasKey, alookup]

/-- C3.  Registering the same canonical name twice succeeds and leaves the
registry unchanged exactly when the two registrations agree on name, type
name, type tag and usage string (the type tag recorded by `Register` is
always empty, so with equal names this reduces to equal value kinds and
equal usage strings); any disagreement makes the second call fail with the
conflicting-registration error, still leaving the registry unchanged. -/
theorem c3_reregistration (p1 p2 : ParamDecl) (u1 u2 : String) (st : MetaData)
    (hopen : st.registrationOpen = true)
    (hfresh : alookup st.registry p1.name = none)
    (hname : p2.name = p1.name) :
    (Register p1 u1 st).1 = .ok () ∧
    ((Register p2 u2 (Register p1 u1 st).2).1 = .ok () ↔ p2.kind = p1.kind ∧ u2 = u1) ∧
    (Register p2 u2 (Register p1 u1 st).2).2.registry = (Register p1 u1 st).2.registry ∧
    (¬(p2.kind = p1.kind ∧ u2 = u1) →
      (Register p2 u2 (Register p1 u1 st).2).1 = .error (.conflictingRegistration p1.name)) := by
  have h1 : Register p1 u1 st =
      (.ok (), { st with
        finalizers := st.finalizers ++ [p1]
        registry := astore st.registry p1.name (builtParamInfo p1 u1) }) := by
    simp [Register, hopen, hfresh]
  have hlook : alookup (Register p1 u1 st).2.registry p2.name = some (builtParamInfo p1 u1) := by
    rw [h1, hname]
    exact alookup_astore_self st.registry p1.name _
  have hopen1 : (Register p1 u1 st).2.registrationOpen = true := by
    rw [register_registrationOpen]
    exact hopen
  have heq := builtParamInfo_eq_iff p1 p2 u1 u2 hname
  have hreg2 : Register p2 u2 (Register p1 u1 st).2 =
      (if (builtParamInfo p1 u1).eq (builtParamInfo p2 u2) then .ok ()
        else .error (.conflictingRegistration p2.name),
       { (Register p1 u1 st).2 with
         finalizers := (Register p1 u1 st).2.finalizers ++ [p2] }) :=
    register_existing p2 u2 (Register p1 u1 st).2 hopen1 (builtParamInfo p1 u1) hlook
  refine ⟨by rw [h1], ?_, ?_, ?_⟩
  · constructor
    · intro hok
      by_cases hb : ParamInfo.eq (builtParamInfo p1 u1) (builtParamInfo p2 u2) = true
      · exact heq.mp hb
      · rw [hreg2, if_neg hb] at hok
        simp at hok
    · intro hc
      rw [hreg2, if_pos (heq.mpr hc)]
  · rw [hreg2]
  · intro hc
    have hf : ParamInfo.eq (builtParamInfo p1 u1) (builtParamInfo p2 u2) = false := by
      rw [← Bool.not_eq_true]
      intro hx
      exact hc (heq.mp hx)
    rw [hreg2]
    simp [hf, hname]

/-- Witness for C3 at concrete registrations: an identical re-registration
succeeds without changing the registry, and a usage-string mismatch is
rejected as conflicting. -/
theorem c3_reregistration_witness :
    (Register ⟨"N", .int 3⟩ "u" (Register ⟨"N", .int 3⟩ "u" MetaData.clear).2).1 = .ok () ∧
    (Register ⟨"N", .int 3⟩ "w" (Register ⟨"N", .int 3⟩ "u" MetaData.clear).2).1 =
      .error (.conflictingRegistration "N") := by
  have h1 := c3_reregistration ⟨"N", .int 3⟩ ⟨"N", .int 3⟩ "u" "u" MetaData.clear
    rfl (by simp [MetaData.clear, alookup]) rfl
  have h2 := c3_reregistration ⟨"N", .int 3⟩ ⟨"N", .int 3⟩ "u" "w" MetaData.clear
    rfl (by simp [MetaData.clear, alookup]) rfl
  refine ⟨h1.2.1.mpr ⟨rfl, rfl⟩, h2.2.2.2 ?_⟩
  intro hx
  exact absurd hx.2 (by decide)

/-- C9.  `Get` with `errorIfNotRegistered = false` on a never-registered
name inserts a fresh, value-initialized registry entry (empty default
text) as a side effect, and a string-typed parameter with no supplied
value then resolves to the empty string instead of its compiled-in
default (`s0` below), which the freshly inserted entry does not record. -/
theorem c9_unregistered_get_inserts_entry (n : String) (s0 : String) (st : MetaData)
    (hunreg : alookup st.registry n = none)
    (hunset : alookup st.tree n = none) :
    Get ⟨n, .str s0⟩ false st =
      (.ok (.str ""), { st with registry := st.registry ++ [(n, emptyParamInfo)] }) := by
  simp [Get, registryIndex, hunreg, hunset, emptyParamInfo]

/-- Witness for C9: on the pristine state the compiled-in default
`"compiled"` is ignored and the empty string is returned, while the
registry acquires an entry for the name. -/
theorem c9_unregistered_get_inserts_entry_witness :
    Get ⟨"Ghost", .str "compiled"⟩ false MetaData.clear =
      (.ok (.str ""),
        { tree := [], registry := [("Ghost", emptyParamInfo)], finalizers := [],
          registrationOpen := true }) := by
  have h := c9_unregistered_get_inserts_entry "Ghost" "compiled" MetaData.clear rfl rfl
  rw [h]
  rfl

/-- C10 counterexample.  A `Register` call made after registration closed
fails before the validator list is touched, so not literally every
`Register` call enqueues a validator. -/
theorem c10_counterexample :
    (Register ⟨"P", .int 1⟩ "u"
      { tree := [], registry := [], finalizers := [], registrationOpen := false }) =
      (.error (.registrationClosed "P"),
        { tree := [], registry := [], finalizers := [], registrationOpen := false }) := by
  rfl

/-- C10 (amended to calls made while registration is open).  `Register`
appends its deferred validator before consulting the registry, so every
open-state call — a fresh registration, an idempotent re-registration, or
one failing with the conflicting-registration error — leaves exactly one
more validator enqueued; a failing open-state `Register` is therefore not
atomic, and the validator list counts open-state `Register` calls rather
than distinct registry entries. -/
theorem c10_register_appends_validator (p : ParamDecl) (u : String) (st : MetaData)
    (hopen : st.registrationOpen = true) :
    (Register p u st).2.finalizers = st.finalizers ++ [p] := by
  unfold Register
  simp only [hopen, Bool.not_true, Bool.false_eq_true, if_false]
  cases alookup st.registry p.name with
  | none => simp
  | some existing =>
    by_cases he : existing.eq (builtParamInfo p u) = true <;> simp [he]

/-- A `Get` call can touch only the registry component of the state. -/
theorem get_preserves (p : ParamDecl) (e : Bool) (st : MetaData) :
    (Get p e st).2.registrationOpen = st.registrationOpen ∧
    (Get p e st).2.finalizers = st.finalizers ∧ (Get p e st).2.tree = st.tree := by
  unfold Get
  split
  · simp
  · split
    · simp
    · cases halook : alookup st.tree p.name with
      | none => simp
      | some txt =>
        cases hp : duneParse p.kind txt with
        | none => simp [hp]
        | some v => simp [hp]

/-- The finalizer loop can touch only the registry component of the
state. -/
theorem retrieveAll_preserves (ps : List ParamDecl) (st : MetaData) :
    (retrieveAll ps st).2.1.registrationOpen = st.registrationOpen ∧
    (retrieveAll ps st).2.1.finalizers = st.finalizers := by
  induction ps generalizing st with
  | nil => simp [retrieveAll]
  | cons p rest ih =>
    unfold retrieveAll
    rcases hg : Get p true st with ⟨res, st'⟩
    have hpres := get_preserves p true st
    rw [hg] at hpres
    cases res with
    | ok v =>
      simp only []
      have := ih st'
      exact ⟨by rw [this.1, hpres.1], by rw [this.2, hpres.2.1]⟩
    | error e => exact ⟨hpres.1, hpres.2.1⟩

/-- When the finalizer loop succeeds, its invocation trace lists every
pending parameter exactly once, in order. -/
theorem retrieveAll_trace_of_ok (ps : List ParamDecl) (st : MetaData)
    (h : (retrieveAll ps st).1 = .ok ()) :
    (retrieveAll ps st).2.2 = ps.map ParamDecl.name := by
  induction ps generalizing st with
  | nil => simp [retrieveAll]
  | cons p rest ih =>
    unfold retrieveAll at h ⊢
    rcases hg : Get p true st with ⟨res, st'⟩
    rw [hg] at h
    cases res with
    | ok v =>
      simp only [List.map_cons, List.cons.injEq, true_and]
      exact ih st' (by simpa using h)
    | error e => simp at h

/-- Witness for C10: a conflicting re-registration reports an error yet
still enqueues its validator. -/
theorem c10_register_appends_validator_witness :
    (Register ⟨"N", .boolean true⟩ "w" (Register ⟨"N", .int 3⟩ "u" MetaData.clear).2).1 =
      .error (.conflictingRegistration "N") ∧
    (Register ⟨"N", .boolean true⟩ "w" (Register ⟨"N", .int 3⟩ "u" MetaData.clear).2).2.finalizers =
      [⟨"N", .int 3⟩, ⟨"N", .boolean true⟩] := by
  constructor
  · rfl
  · have h := c10_register_appends_validator ⟨"N", .boolean true⟩ "w"
      (Register ⟨"N", .int 3⟩ "u" MetaData.clear).2 (by rfl)
    rw [h]
    rfl

/-- From a closed state `endRegistration` reports the already-closed
error. -/
theorem endRegistration_closed (st : MetaData) (h : st.registrationOpen = false) :
    (endRegistration st).1 = .error .alreadyClosed := by
  unfold endRegistration
  simp [h]

/-- C6.  From an open state, `endRegistration` leaves the
registration-open flag false (it is set before the finalizers run, so this
holds even when a finalizer fails); calling `endRegistration` again on the
resulting state fails with the already-closed error; and when the call
succeeds it has invoked every pending deferred validator exactly once, in
order (the trace lists each pending parameter once), and cleared the
validator list. -/
theorem c6_endRegistration_once (st : MetaData) (hopen : st.registrationOpen = true) :
    (endRegistration st).2.1.registrationOpen = false ∧
    (endRegistration (endRegistration st).2.1).1 = .error .alreadyClosed ∧
    ((endRegistration st).1 = .ok () →
      (endRegistration st).2.2 = st.finalizers.map ParamDecl.name ∧
      (endRegistration st).2.1.finalizers = []) := by
  have hpres := retrieveAll_preserves st.finalizers { st with registrationOpen := false }
  have hflag : (endRegistration st).2.1.registrationOpen = false := by
    unfold endRegistration
    simp only [hopen, Bool.not_true, Bool.false_eq_true, if_false]
    cases hr : (retrieveAll st.finalizers { st with registrationOpen := false }).1 with
    | ok u =>
      simp only [hr]
      exact hpres.1
    | error e =>
      simp only [hr]
      exact hpres.1
  refine ⟨hflag, endRegistration_closed _ hflag, ?_⟩
  · intro hok
    unfold endRegistration at hok ⊢
    simp only [hopen, Bool.not_true, Bool.false_eq_true, if_false] at hok ⊢
    cases hr : (retrieveAll st.finalizers { st with registrationOpen := false }).1 with
    | ok u =>
      cases u
      simp only [hr]
      have htr : (retrieveAll st.finalizers { st with registrationOpen := false }).2.2 =
          st.finalizers.map ParamDecl.name :=
        retrieveAll_trace_of_ok st.finalizers { st with registrationOpen := false } hr
      exact ⟨htr, trivial⟩
    | error e =>
      simp only [hr] at hok
      simp at hok

/-- Witness for C6 at a concrete one-parameter session: the close succeeds
with the single validator invoked, the list is cleared, and a second close
is rejected. -/
theorem c6_endRegistration_once_witness :
    (endRegistration (Register ⟨"MaxIter", .int 10⟩ "m" MetaData.clear).2).2.2 = ["MaxIter"] ∧
    (endRegistration (Register ⟨"MaxIter", .int 10⟩ "m" MetaData.clear).2).2.1.finalizers = [] ∧
    (endRegistration
      (endRegistration (Register ⟨"MaxIter", .int 10⟩ "m" MetaData.clear).2).2.1).1 =
      .error .alreadyClosed := by
  have h := c6_endRegistration_once (Register ⟨"MaxIter", .int 10⟩ "m" MetaData.clear).2 (by rfl)
  have hok := h.2.2 (by rfl)
  exact ⟨by rw [hok.1]; rfl, hok.2, h.2.1⟩

/-- C2 shows a code bug, witnessed here by evaluation: lines deviating from
the `key = value` grammar are accepted because the source constructs its
syntax-error exceptions without throwing them.  A line whose key is not
followed by `=` silently stores a value with its first character chopped
off; a line with non-comment trailing text after the value silently stores
the value; a line whose `=` is followed by nothing stores the empty
string.  Only the no-text-after-the-key case fails, and then with
`std::out_of_range` from `substr`, not with a tagged syntax error. -/
theorem c2_swallowed_syntax_errors :
    parseParameterFile "f" ["foo bar"] true MetaData.clear =
      (.ok (), { MetaData.clear with tree := [("Foo", "ar")] }) ∧
    parseParameterFile "f" ["foo = 1 junk"] true MetaData.clear =
      (.ok (), { MetaData.clear with tree := [("Foo", "1")] }) ∧
    parseParameterFile "f" ["foo ="] true MetaData.clear =
      (.ok (), { MetaData.clear with tree := [("Foo", "")] }) ∧
    parseParameterFile "f" ["foo"] true MetaData.clear =
      (.error .substrOutOfRange, MetaData.clear) := by
  exact ⟨rfl, rfl, rfl, rfl⟩

/-- C8 shows a code bug, witnessed here by evaluation: when a wrap is
forced before any whitespace has been seen after an author-supplied
newline, `lastBreakPos` still holds the bogus `startInPos + 1` set by the
newline branch, and the wrap deletes the non-whitespace character at that
position.  The claim's newline-preservation (surrounding text unaltered)
fails: the input character `b` is absent from the output. -/
theorem c8_breakLines_drops_character :
    breakLines "x\nabcdef" 0 3 = "x\na\ncde\nf" ∧
    'b' ∈ "x\nabcdef".data ∧ 'b' ∉ (breakLines "x\nabcdef" 0 3).data := by
  refine ⟨rfl, by decide, by decide⟩

/-- Escape dispatch shape of the scanner: on a backslash followed by
anything, the result is either the recursive result mapped through one of
the five translations, or an unknown-escape error. -/
theorem parseQuotedTail_escape_shape (pfx : String) (e : Char) (rest' : List Char) :
    (∃ f, parseQuotedTail pfx ('\\' :: e :: rest') =
      (parseQuotedTail pfx rest').map f) ∨
    parseQuotedTail pfx ('\\' :: e :: rest') = .error (.unknownEscape pfx e) := by
  by_cases h1 : e = 'n'
  · exact Or.inl ⟨fun p => ('\n' :: p.1, p.2), by simp [parseQuotedTail, h1]⟩
  · by_cases h2 : e = 'r'
    · exact Or.inl ⟨fun p => ('\r' :: p.1, p.2), by simp [parseQuotedTail, h1, h2]⟩
    · by_cases h3 : e = 't'
      · exact Or.inl ⟨fun p => ('\t' :: p.1, p.2), by simp [parseQuotedTail, h1, h2, h3]⟩
      · by_cases h4 : e = '"'
        · exact Or.inl ⟨fun p => ('"' :: p.1, p.2),
            by simp [parseQuotedTail, h1, h2, h3, h4]⟩
        · by_cases h5 : e = '\\'
          · exact Or.inl ⟨fun p => ('\\' :: p.1, p.2),
              by simp [parseQuotedTail, h1, h2, h3, h4, h5]⟩
          · exact Or.inr (by simp [parseQuotedTail, h1, h2, h3, h4, h5])

/-- On a recognised escape character, the scanner maps its translation
over the recursive result. -/
theorem parseQuotedTail_escape_map (pfx : String) (e : Char) (rest' : List Char)
    (hv : (e = 'n' || e = 'r' || e = 't' || e = '"' || e = '\\') = true) :
    ∃ f, parseQuotedTail pfx ('\\' :: e :: rest') = (parseQuotedTail pfx rest').map f := by
  simp only [Bool.or_eq_true, decide_eq_true_eq] at hv
  rcases hv with ((((h1 | h2) | h3) | h4) | h5)
  · subst h1
    exact ⟨fun p => ('\n' :: p.1, p.2), by simp [parseQuotedTail]⟩
  · subst h2
    exact ⟨fun p => ('\r' :: p.1, p.2), by simp [parseQuotedTail]⟩
  · subst h3
    exact ⟨fun p => ('\t' :: p.1, p.2), by simp [parseQuotedTail]⟩
  · subst h4
    exact ⟨fun p => ('"' :: p.1, p.2), by simp [parseQuotedTail]⟩
  · subst h5
    exact ⟨fun p => ('\\' :: p.1, p.2), by simp [parseQuotedTail]⟩

/-- On an input whose opening quote is never closed — the escape-skipping
scan meets no unescaped double quote — the scanner can never succeed. -/
theorem parseQuotedTail_no_closing (pfx : String) :
    ∀ (n : Nat) (s : List Char), s.length ≤ n → unescapedQuoteFree s = true →
      ∀ v, parseQuotedTail pfx s ≠ .ok v := by
  intro n
  induction n with
  | zero =>
    intro s hs _ v
    have : s = [] := List.eq_nil_of_length_eq_zero (Nat.le_zero.mp hs)
    subst this
    simp [parseQuotedTail]
  | succ n ih =>
    intro s hs hqf v
    match s with
    | [] => simp [parseQuotedTail]
    | c :: rest =>
      rw [unescapedQuoteFree.eq_def] at hqf
      dsimp only at hqf
      by_cases hq : c = '"'
      · rw [if_pos hq] at hqf
        exact absurd hqf (by simp)
      · rw [if_neg hq] at hqf
        by_cases hbs : c = '\\'
        · rw [if_pos hbs] at hqf
          subst hbs
          match rest with
          | [] => simp [parseQuotedTail]
          | e :: rest' =>
            have hqf' : unescapedQuoteFree rest' = true := hqf
            have hih := ih rest' (by simp at hs; omega) hqf'
            rcases parseQuotedTail_escape_shape pfx e rest' with ⟨f, hf⟩ | herr
            · rw [hf]
              cases hpi : parseQuotedTail pfx rest' with
              | ok w => exact absurd hpi (hih w)
              | error er2 => exact fun hx => Except.noConfusion hx
            · rw [herr]
              exact fun hx => Except.noConfusion hx
        · rw [if_neg hbs] at hqf
          rw [parseQuotedTail.eq_def]
          simp only [if_neg hbs, if_neg hq]
          have hih := ih rest (by simp at hs; omega) hqf
          cases hpi : parseQuotedTail pfx rest with
          | ok w => exact absurd hpi (hih w)
          | error err => exact fun hx => Except.noConfusion hx

/-- On an input whose opening quote is never closed and whose escape
sequences are all recognised, the scanner fails with the unexpected-end
error exactly when the input ends in the middle of an escape sequence, and
with the out-of-range substring error otherwise. -/
theorem parseQuotedTail_no_closing_eval (pfx : String) :
    ∀ (n : Nat) (s : List Char), s.length ≤ n → unescapedQuoteFree s = true →
      allEscapesValid s = true →
      parseQuotedTail pfx s =
        (if endsMidEscape s = true then .error (.unexpectedEnd pfx)
          else .error .substrOutOfRange) := by
  intro n
  induction n with
  | zero =>
    intro s hs _ _
    have : s = [] := List.eq_nil_of_length_eq_zero (Nat.le_zero.mp hs)
    subst this
    simp [parseQuotedTail, endsMidEscape]
  | succ n ih =>
    intro s hs hqf hav
    match s with
    | [] => simp [parseQuotedTail, endsMidEscape]
    | c :: rest =>
      rw [unescapedQuoteFree.eq_def] at hqf
      dsimp only at hqf
      by_cases hq : c = '"'
      · rw [if_pos hq] at hqf
        exact absurd hqf (by simp)
      · rw [if_neg hq] at hqf
        by_cases hbs : c = '\\'
        · rw [if_pos hbs] at hqf
          subst hbs
          match rest with
          | [] => simp [parseQuotedTail, endsMidEscape]
          | e :: rest' =>
            have hqf' : unescapedQuoteFree rest' = true := hqf
            have hav' : ((e = 'n' || e = 'r' || e = 't' || e = '"' || e = '\\') &&
                allEscapesValid rest') = true := hav
            rw [Bool.and_eq_true] at hav'
            have hme : endsMidEscape ('\\' :: e :: rest') = endsMidEscape rest' := rfl
            have hih := ih rest' (by simp at hs; omega) hqf' hav'.2
            obtain ⟨f, hf⟩ := parseQuotedTail_escape_map pfx e rest' hav'.1
            rw [hf, hih, hme]
            by_cases hm : endsMidEscape rest' = true
            · rw [if_pos hm]
              rfl
            · rw [if_neg hm]
              rfl
        · rw [if_neg hbs] at hqf
          rw [allEscapesValid.eq_def] at hav
          dsimp only at hav
          rw [if_neg hbs] at hav
          have hme : endsMidEscape (c :: rest) = endsMidEscape rest := by
            rw [endsMidEscape.eq_def]
            dsimp only
            rw [if_neg hbs]
          rw [parseQuotedTail.eq_def]
          simp only [if_neg hbs, if_neg hq]
          rw [ih rest (by simp at hs; omega) hqf hav, hme]
          by_cases hm : endsMidEscape rest = true
          · rw [if_pos hm]
            rfl
          · rw [if_neg hm]
            rfl

/-- C5 counterexample.  An unterminated quoted value does fail, but with
the `std::out_of_range` of the final `substr` call rather than with a
dedicated unterminated-string error: no code path produces
`unterminatedString`. -/
theorem c5_counterexample :
    parseQuotedValue "\"unterminated" "" = .error .substrOutOfRange ∧
    PErr.substrOutOfRange ≠ PErr.unterminatedString "" := by
  exact ⟨rfl, by decide⟩

/-- C5 (amended in the failure kind for unterminated input).  Quoted-value
parsing copies ordinary characters verbatim until a double quote,
translates exactly the escapes `\n`, `\r`, `\t`, `\"`, `\\`, and fails on
any other escape with the unknown-escape error; the example input parses
to `a`, newline, `b`, quote, `c`.  An input whose opening quote is never
closed (`unescapedQuoteFree`: the escape-skipping scan meets no unescaped
double quote) never succeeds; when additionally every escape it contains
is recognised, it fails with the unexpected-end error exactly when it ends
in the middle of an escape sequence and with the out-of-range substring
error otherwise — never with a dedicated unterminated-string error, as the
two concrete evaluations illustrate. -/
theorem c5_quoted_value_parsing :
    parseQuotedValue "\"a\\nb\\\"c\"" "" = .ok ("a\nb\"c", "") ∧
    (∀ pfx rest, parseQuotedTail pfx ('\\' :: 'n' :: rest) =
      (parseQuotedTail pfx rest).map (fun p => ('\n' :: p.1, p.2))) ∧
    (∀ pfx rest, parseQuotedTail pfx ('\\' :: 'r' :: rest) =
      (parseQuotedTail pfx rest).map (fun p => ('\r' :: p.1, p.2))) ∧
    (∀ pfx rest, parseQuotedTail pfx ('\\' :: 't' :: rest) =
      (parseQuotedTail pfx rest).map (fun p => ('\t' :: p.1, p.2))) ∧
    (∀ pfx rest, parseQuotedTail pfx ('\\' :: '"' :: rest) =
      (parseQuotedTail pfx rest).map (fun p => ('"' :: p.1, p.2))) ∧
    (∀ pfx rest, parseQuotedTail pfx ('\\' :: '\\' :: rest) =
      (parseQuotedTail pfx rest).map (fun p => ('\\' :: p.1, p.2))) ∧
    (∀ pfx e rest, e ≠ 'n' → e ≠ 'r' → e ≠ 't' → e ≠ '"' → e ≠ '\\' →
      parseQuotedTail pfx ('\\' :: e :: rest) = .error (.unknownEscape pfx e)) ∧
    (∀ pfx c rest, c ≠ '\\' → c ≠ '"' →
      parseQuotedTail pfx (c :: rest) =
        (parseQuotedTail pfx rest).map (fun p => (c :: p.1, p.2))) ∧
    (∀ pfx rest, parseQuotedTail pfx ('"' :: rest) = .ok ([], rest)) ∧
    (∀ pfx s v, unescapedQuoteFree s = true → parseQuotedTail pfx s ≠ .ok v) ∧
    (∀ pfx s, unescapedQuoteFree s = true → allEscapesValid s = true →
      parseQuotedTail pfx s =
        (if endsMidEscape s = true then .error (.unexpectedEnd pfx)
          else .error .substrOutOfRange)) ∧
    parseQuotedValue "\"abc\\" "" = .error (.unexpectedEnd "") ∧
    parseQuotedValue "\"unterminated" "" = .error .substrOutOfRange := by
  refine ⟨rfl, ?_, ?_, ?_, ?_, ?_, ?_, ?_, ?_, ?_, ?_, ?_, rfl⟩
  · intro pfx rest
    simp [parseQuotedTail]
  · intro pfx rest
    simp [parseQuotedTail]
  · intro pfx rest
    simp [parseQuotedTail]
  · intro pfx rest
    simp [parseQuotedTail]
  · intro pfx rest
    simp [parseQuotedTail]
  · intro pfx e rest h1 h2 h3 h4 h5
    simp [parseQuotedTail, h1, h2, h3, h4, h5]
  · intro pfx c rest h1 h2
    rw [parseQuotedTail.eq_def]
    simp [h1, h2]
  · intro pfx rest
    rw [parseQuotedTail.eq_def]
    simp
  · intro pfx s v hq
    exact parseQuotedTail_no_closing pfx s.length s (Nat.le_refl _) hq v
  · intro pfx s hq hv
    exact parseQuotedTail_no_closing_eval pfx s.length s (Nat.le_refl _) hq hv
  · rfl

/-- Two leading hyphens characterised through the loop's index tests. -/
theorem dashdash_isPrefixOf (l : List Char) :
    ['-', '-'].isPrefixOf l = true ↔ l.head? = some '-' ∧ l.get? 1 = some '-' := by
  match l with
  | [] => simp [List.isPrefixOf]
  | [a] => simp [List.isPrefixOf]
  | a :: b :: rest =>
    simp [List.isPrefixOf]
    constructor
    · intro h
      exact ⟨h.1.symm, h.2.symm⟩
    · intro h
      exact ⟨h.1.symm, h.2.symm⟩

/-- A token failing the positional test has at least 4 characters and
starts with two hyphens. -/
theorem isPositionalTok_false (tok : String) (h : isPositionalTok tok = false) :
    4 ≤ tok.length ∧ ['-', '-'].isPrefixOf tok.data = true := by
  have h' : ¬ isPositionalTok tok = true := by simp [h]
  simp only [isPositionalTok, Bool.or_eq_true, decide_eq_true_eq, not_or, not_lt,
    Ne, not_not] at h'
  exact ⟨h'.1.1, (dashdash_isPrefixOf tok.data).mpr ⟨h'.1.2, h'.2⟩⟩

/-- A token passing the positional test is short or does not start with
two hyphens. -/
theorem isPositionalTok_true (tok : String) (h : isPositionalTok tok = true) :
    tok.length < 4 ∨ ['-', '-'].isPrefixOf tok.data = false := by
  simp only [isPositionalTok, Bool.or_eq_true, decide_eq_true_eq] at h
  rcases h with (h4 | hh) | h1
  · exact Or.inl h4
  · refine Or.inr ?_
    rw [← Bool.not_eq_true]
    intro hp
    exact hh ((dashdash_isPrefixOf tok.data).mp hp).1
  · refine Or.inr ?_
    rw [← Bool.not_eq_true]
    intro hp
    exact h1 ((dashdash_isPrefixOf tok.data).mp hp).2

/-- Every event the argument loop emits is classified by the source's
positional test: delegated tokens satisfy it, named-option tokens
refute it. -/
theorem pclLoop_events_classified (cb : PosHandler) (argv : List String) :
    ∀ (fuel i numPos : Nat) (seen : List String) (tree : List (String × String)),
      ∀ ev ∈ (pclLoop cb argv fuel i numPos seen tree).2.2,
        (∀ tok, ev = CmdEvent.positional tok → isPositionalTok tok = true) ∧
        (∀ tok, ev = CmdEvent.named tok → isPositionalTok tok = false) := by
  intro fuel
  induction fuel with
  | zero =>
    intro i numPos seen tree ev hev
    simp [pclLoop] at hev
  | succ fuel ih =>
    intro i numPos seen tree ev hev
    rw [pclLoop] at hev
    by_cases hlt : i < argv.length
    · rw [dif_pos hlt] at hev
      by_cases hcond : isPositionalTok (argv.get ⟨i, hlt⟩) = true
      · rw [if_pos hcond] at hev
        by_cases hnum : (cb argv i numPos).numHandled < 1
        · rw [if_pos hnum] at hev
          simp only [List.mem_singleton] at hev
          subst hev
          refine ⟨?_, ?_⟩
          · intro tok ht
            cases ht
            exact hcond
          · intro tok ht
            cases ht
        · rw [if_neg hnum] at hev
          simp only [List.mem_cons] at hev
          rcases hev with hev | hev
          · subst hev
            refine ⟨?_, ?_⟩
            · intro tok ht
              cases ht
              exact hcond
            · intro tok ht
              cases ht
          · exact ih _ _ _ _ ev hev
      · rw [if_neg hcond] at hev
        have hfalse : isPositionalTok (argv.get ⟨i, hlt⟩) = false := by
          rw [← Bool.not_eq_true]
          exact hcond
        by_cases halpha : ¬ ((argv.get ⟨i, hlt⟩).data.get? 2).any Char.isAlpha
        · rw [if_pos halpha] at hev
          simp only [List.mem_singleton] at hev
          subst hev
          refine ⟨?_, ?_⟩
          · intro tok ht
            cases ht
          · intro tok ht
            cases ht
            exact hfalse
        · rw [if_neg halpha] at hev
          rcases htk : transformKey
              (parseKey (String.mk ((argv.get ⟨i, hlt⟩).data.drop 2))).1 true "" with e | paramName
          all_goals rw [htk] at hev
          all_goals dsimp only at hev
          · simp only [List.mem_singleton] at hev
            subst hev
            refine ⟨?_, ?_⟩
            · intro tok ht
              cases ht
            · intro tok ht
              cases ht
              exact hfalse
          · by_cases hseen : seen.contains paramName
            · rw [if_pos hseen] at hev
              simp only [List.mem_singleton] at hev
              subst hev
              refine ⟨?_, ?_⟩
              · intro tok ht
                cases ht
              · intro tok ht
                cases ht
                exact hfalse
            · rw [if_neg hseen] at hev
              by_cases heq :
                  (parseKey (String.mk ((argv.get ⟨i, hlt⟩).data.drop 2))).2.data.head? ≠
                    some '='
              · rw [if_pos heq] at hev
                simp only [List.mem_singleton] at hev
                subst hev
                refine ⟨?_, ?_⟩
                · intro tok ht
                  cases ht
                · intro tok ht
                  cases ht
                  exact hfalse
              · rw [if_neg heq] at hev
                simp only [List.mem_cons] at hev
                rcases hev with hev | hev
                · subst hev
                  refine ⟨?_, ?_⟩
                  · intro tok ht
                    cases ht
                  · intro tok ht
                    cases ht
                    exact hfalse
                · exact ih _ _ _ _ ev hev
    · rw [dif_neg hlt] at hev
      simp at hev

/-- C4 counterexample.  The token `--a` starts with `--`, yet the loop
delegates it to the positional-argument handler: the source's test is
`strlen < 4`, not merely the absence of a `--` prefix, so three-character
`--x` tokens are positional. -/
theorem c4_counterexample :
    (parseCommandLineOptions ["prog", "--a"] "" noPositionalParameters []).2.2 =
      [CmdEvent.positional "--a"] ∧
    ['-', '-'].isPrefixOf "--a".data = true := by
  exact ⟨by decide, by decide⟩

/-- C4 (amended in the delegation test).  Every token the argument loop
examines is delegated to the positional-argument handler if and only if it
has fewer than 4 characters or does not start with `--`; every examined
token with at least 4 characters starting with `--` is processed as a
named `--name=value` option.  (Tokens consumed as extras by the positional
handler, tokens after the first error, and help short-circuits produce no
event.) -/
theorem c4_token_classification (argv : List String) (helpPreamble : String)
    (cb : PosHandler) (tree : List (String × String)) :
    ∀ ev ∈ (parseCommandLineOptions argv helpPreamble cb tree).2.2,
      (∀ tok, ev = CmdEvent.positional tok →
        tok.length < 4 ∨ ['-', '-'].isPrefixOf tok.data = false) ∧
      (∀ tok, ev = CmdEvent.named tok →
        4 ≤ tok.length ∧ ['-', '-'].isPrefixOf tok.data = true) := by
  intro ev hev
  unfold parseCommandLineOptions at hev
  by_cases hhelp : (helpPreamble != "" &&
      (argv.drop 1).any (fun t => t == "-h" || t == "--help" || t == "--help-all")) = true
  · rw [if_pos hhelp] at hev
    simp at hev
  · rw [if_neg hhelp] at hev
    have hcl := pclLoop_events_classified cb argv argv.length 1 0 [] tree ev hev
    refine ⟨?_, ?_⟩
    · intro tok ht
      exact isPositionalTok_true tok (hcl.1 tok ht)
    · intro tok ht
      exact isPositionalTok_false tok (hcl.2 tok ht)

/-- Witness for C4: on a command line with one positional token and one
named option, both events are classified as the amended claim states. -/
theorem c4_token_classification_witness :
    (4 ≤ "--my-opt=abc".length ∧ ['-', '-'].isPrefixOf "--my-opt=abc".data = true) ∧
    ("ab".length < 4 ∨ ['-', '-'].isPrefixOf "ab".data = false) := by
  constructor
  · exact (c4_token_classification ["prog", "--my-opt=abc", "ab"] "" noPositionalParameters []
      (CmdEvent.named "--my-opt=abc") (by decide)).2 "--my-opt=abc" rfl
  · exact (c4_token_classification ["prog", "--my-opt=abc", "ab"] "" noPositionalParameters []
      (CmdEvent.positional "ab") (by decide)).1 "ab" rfl

/-- Lower-casing an upper-case ASCII letter yields a letter. -/
theorem toLower_isAlpha_of_isUpper (c : Char) (h : c.isUpper = true) :
    c.toLower.isAlpha = true := by
  have hlow := toLower_of_isUpper c h
  obtain ⟨h1, h2⟩ := (isUpper_iff c).mp h
  exact (isAlpha_iff _).mpr (Or.inr ⟨by omega, by omega⟩)

/-- An alphanumeric character is not a hyphen. -/
theorem alnum_ne_dash (c : Char) (h : c.isAlphanum = true) : c ≠ '-' := by
  intro he
  subst he
  exact absurd h (by decide)

/-- An alphanumeric character that is not upper case is fixed by
lower-casing. -/
theorem toLower_fix_of_not_isUpper (c : Char) (h : ¬ c.isUpper = true) : c.toLower = c :=
  toLower_of_not_isUpper c h

/-- Evaluation of the `transformKey` loop on a hyphen followed by a
letter. -/
theorem transformKeyTail_dash (pfx orig : String) (d : Char) (k : List Char)
    (hd : d.isAlpha = true) :
    transformKeyTail pfx orig ('-' :: d :: k) =
      (transformKeyTail pfx orig k).map (fun r => d.toUpper :: r) := by
  rw [transformKeyTail.eq_def]
  simp [hd]

/-- Evaluation of the `transformKey` loop on a plain alphanumeric
character. -/
theorem transformKeyTail_copy (pfx orig : String) (c : Char) (k : List Char)
    (hc1 : c ≠ '-') (hc2 : c.isAlphanum = true) :
    transformKeyTail pfx orig (c :: k) =
      (transformKeyTail pfx orig k).map (fun r => c :: r) := by
  rw [transformKeyTail.eq_def]
  simp [hc1, hc2]

/-- The `transformKey` loop inverts the kebab-case rendering on any
alphanumeric character sequence. -/
theorem transformKeyTail_cmdLineNameChars (pfx orig : String) :
    ∀ cs : List Char, (∀ d ∈ cs, d.isAlphanum = true) →
      transformKeyTail pfx orig (cmdLineNameChars cs) = .ok cs := by
  intro cs
  induction cs with
  | nil =>
    intro _
    simp [cmdLineNameChars, transformKeyTail]
  | cons d rest ih =>
    intro hall
    have hd : d.isAlphanum = true := hall d (List.mem_cons_self d rest)
    have hrest : ∀ x ∈ rest, x.isAlphanum = true := fun x hx => hall x (List.mem_cons_of_mem d hx)
    by_cases hu : d.isUpper = true
    · have hcml : cmdLineNameChars (d :: rest) = '-' :: d.toLower :: cmdLineNameChars rest := by
        simp [cmdLineNameChars, hu]
      rw [hcml, transformKeyTail_dash pfx orig d.toLower (cmdLineNameChars rest)
        (toLower_isAlpha_of_isUpper d hu)]
      rw [ih hrest]
      simp [Except.map, toUpper_toLower_of_isUpper d hu]
    · have hcml : cmdLineNameChars (d :: rest) = d :: cmdLineNameChars rest := by
        simp [cmdLineNameChars, hu, toLower_fix_of_not_isUpper d hu]
      rw [hcml, transformKeyTail_copy pfx orig d (cmdLineNameChars rest)
        (alnum_ne_dash d hd) hd]
      rw [ih hrest]
      simp [Except.map]

/-- C7 counterexample.  The single-letter name `x` satisfies the claim's
validity criterion (letters and digits only, starting with a letter), but
its rendered command-line form is `-x`, whose portion after the first two
characters is empty, and `transformKey` rejects it rather than returning
`x`; more generally any canonical name starting with a lower-case letter
fails the round trip because `capitalizeFirst = true` forces the first
letter upper. -/
theorem c7_counterexample :
    ("x".data.all Char.isAlphanum = true ∧ "x".data.head?.any Char.isAlpha = true) ∧
    transformKey (String.mk ((cmdLineNameOf "x").data.drop 2)) true "" =
      .error (.emptyName "") ∧
    (Except.error (PErr.emptyName "") : Except PErr String) ≠ .ok "x" := by
  exact ⟨by decide, rfl, fun h => Except.noConfusion h⟩

/-- C7 (amended to canonical names starting with an upper-case letter).
For every canonical name made of letters and digits whose first character
is an upper-case letter, rendering it to its kebab-case command-line form
(`printParamUsage`'s conversion) and transforming the part after the
leading `--` back with `capitalizeFirst = true` recovers the original
name. -/
theorem c7_kebab_roundTrip (c : Char) (cs : List Char) (hc : c.isUpper = true)
    (hcs : ∀ d ∈ cs, d.isAlphanum = true) :
    transformKey (String.mk ((cmdLineNameOf (String.mk (c :: cs))).data.drop 2)) true "" =
      .ok (String.mk (c :: cs)) := by
  have hdata : (cmdLineNameOf (String.mk (c :: cs))).data =
      '-' :: '-' :: c.toLower :: cmdLineNameChars cs := by
    show ("-" ++ String.mk (cmdLineNameChars (String.mk (c :: cs)).data)).data = _
    rw [String.data_append]
    show '-' :: cmdLineNameChars (c :: cs) = _
    simp [cmdLineNameChars, hc]
  rw [hdata]
  show transformKey (String.mk (c.toLower :: cmdLineNameChars cs)) true "" = _
  rw [transformKey.eq_def]
  simp only []
  rw [if_pos (toLower_isAlpha_of_isUpper c hc)]
  rw [transformKeyTail_cmdLineNameChars "" _ cs hcs]
  simp [Except.map, toUpper_toLower_of_isUpper c hc]

/-- Witness for C7 at the concrete name `FooBar42`: its command-line form
is `--foo-bar42` and transforming `foo-bar42` back yields `FooBar42`. -/
theorem c7_kebab_roundTrip_witness :
    transformKey (String.mk ((cmdLineNameOf
        (String.mk ('F' :: "ooBar42".data))).data.drop 2)) true "" =
      .ok (String.mk ('F' :: "ooBar42".data)) :=
  c7_kebab_roundTrip 'F' "ooBar42".data (by decide) (by decide)

/-- Witness for C5 at concrete inputs: an unknown escape fails, an
unterminated input cannot succeed, an unterminated input ending mid-escape
fails with the unexpected-end error, and one not ending mid-escape fails
with the out-of-range error. -/
theorem c5_quoted_value_parsing_witness :
    parseQuotedTail "" ['\\', 'x'] = .error (.unknownEscape "" 'x') ∧
    parseQuotedTail "" ['u'] ≠ .ok (['u'], []) ∧
    parseQuotedTail "" ['a', '\\'] = .error (.unexpectedEnd "") ∧
    parseQuotedTail "" ['a', '\\', 'n', 'b'] = .error .substrOutOfRange := by
  obtain ⟨-, -, -, -, -, -, hunk, -, -, hns, htri, -, -⟩ := c5_quoted_value_parsing
  refine ⟨?_, ?_, ?_, ?_⟩
  · exact hunk "" 'x' [] (by decide) (by decide) (by decide) (by decide) (by decide)
  · exact hns "" ['u'] (['u'], []) (by decide)
  · rw [htri "" ['a', '\\'] (by decide) (by decide), if_pos (by decide)]
  · rw [htri "" ['a', '\\', 'n', 'b'] (by decide) (by decide), if_neg (by decide)]

end Opm.Parameters
